import Mathlib

/-!
Verification of the build-aggregation core of FocusAPP (`src/riot_api.py`):
the record extractor, starting-items extractor, aggregator, on-disk build
cache, and collection orchestrator.  Python's dynamically typed JSON data is
embedded as the inductive `JVal`; raising dictionary/iteration operations
return `Except`, and `try/except` blocks are embedded as a match on the
result, with the error payload carrying the state of the mutated local
accumulator at the point where the exception was raised.
-/

namespace FocusApp

/-- A Python/JSON value, as received from `resp.json()`. -/
inductive JVal where
  | jnull
  | jbool (b : Bool)
  | jint (n : Int)
  | jstr (s : String)
  | jarr (xs : List JVal)
  | jobj (fields : List (String × JVal))

mutual

/-- Python `==` on JSON values: structural equality.  (Python compares dicts
order-insensitively and identifies `True` with `1`; the code under scrutiny
only ever compares scalars, where this model coincides.) -/
def jeq : JVal → JVal → Bool
  | .jnull, .jnull => true
  | .jbool a, .jbool b => a == b
  | .jint a, .jint b => a == b
  | .jstr a, .jstr b => a == b
  | .jarr xs, .jarr ys => jeqList xs ys
  | .jobj fs, .jobj gs => jeqFields fs gs
  | _, _ => false

/-- Elementwise Python `==` on lists. -/
def jeqList : List JVal → List JVal → Bool
  | [], [] => true
  | x :: xs, y :: ys => jeq x y && jeqList xs ys
  | _, _ => false

/-- Elementwise Python `==` on dict entries. -/
def jeqFields : List (String × JVal) → List (String × JVal) → Bool
  | [], [] => true
  | (k, x) :: xs, (k2, y) :: ys => k == k2 && jeq x y && jeqFields xs ys
  | _, _ => false

end

/-- Python truthiness (`if v:`); total, never raises. -/
def truthy : JVal → Bool
  | .jnull => false
  | .jbool b => b
  | .jint n => n != 0
  | .jstr s => s != ""
  | .jarr xs => !xs.isEmpty
  | .jobj fs => !fs.isEmpty

/-- Dictionary access `v.get(k, d)`: succeeds only on a dict (any other receiver raises
`AttributeError`); returns the value stored under `k`, or `d` when absent. -/
def jget (v : JVal) (k : String) (d : JVal) : Except Unit JVal :=
  match v with
  | .jobj fs =>
    match fs.lookup k with
    | some x => .ok x
    | none => .ok d
  | _ => .error ()

/-- Subscript `v[0]`: first element of a list, first character of a nonempty string;
anything else raises (`IndexError`/`KeyError`/`TypeError`). -/
def index0 : JVal → Except Unit JVal
  | .jarr (x :: _) => .ok x
  | .jstr s =>
    match s.toList with
    | c :: _ => .ok (.jstr c.toString)
    | [] => .error ()
  | _ => .error ()

/-- Iteration `for x in v`: lists yield elements, strings yield characters, dicts
yield their keys; other values raise `TypeError`. -/
def toIter : JVal → Except Unit (List JVal)
  | .jarr xs => .ok xs
  | .jstr s => .ok (s.toList.map (fun c => .jstr c.toString))
  | .jobj fs => .ok (fs.map (fun kv => .jstr kv.1))
  | _ => .error ()

/-- Coerce a value to a number for arithmetic/comparison; Python `bool` is an
`int` subtype, everything else raises `TypeError`. -/
def toNum : JVal → Except Unit Int
  | .jint n => .ok n
  | .jbool b => .ok (if b then 1 else 0)
  | _ => .error ()

/-- Python `a < b` on (numeric) JSON values. -/
def jlt (a b : JVal) : Except Unit Bool := do
  let x ← toNum a
  let y ← toNum b
  pure (x < y)

/-- The dict `skill_map` (1 Q, 2 W, 3 E, 4 R) as a lookup. -/
def skillMapLookup (n : Int) : Option String :=
  if n = 1 then some "Q"
  else if n = 2 then some "W"
  else if n = 3 then some "E"
  else if n = 4 then some "R"
  else none

/-- Membership `skill_slot in skill_map` plus the lookup: numbers (and bools, an `int`
subtype) hit the map, other hashable values miss it, unhashable values
(lists, dicts) raise `TypeError`. -/
def inSkillMap : JVal → Except Unit (Option String)
  | .jint n => .ok (skillMapLookup n)
  | .jbool b => .ok (skillMapLookup (if b then 1 else 0))
  | .jarr _ => .error ()
  | .jobj _ => .error ()
  | _ => .ok none

/-- Inner event loop of `extract_skill_order`: appends the mapped letter of
every `SKILL_LEVEL_UP` event of the given participant.  An exception carries
the letters accumulated so far (the Python list is mutated in place). -/
def skillScanEvents (pid : JVal) : List String → List JVal → Except (List String) (List String)
  | acc, [] => .ok acc
  | acc, e :: es =>
    match jget e "type" .jnull with
    | .error _ => .error acc
    | .ok ty =>
      if jeq ty (.jstr "SKILL_LEVEL_UP") then
        match jget e "participantId" .jnull with
        | .error _ => .error acc
        | .ok pv =>
          if jeq pv pid then
            match jget e "skillSlot" .jnull with
            | .error _ => .error acc
            | .ok slot =>
              match inSkillMap slot with
              | .error _ => .error acc
              | .ok none => skillScanEvents pid acc es
              | .ok (some letter) => skillScanEvents pid (acc ++ [letter]) es
          else skillScanEvents pid acc es
      else skillScanEvents pid acc es

/-- Frame loop of `extract_skill_order` (all frames are scanned). -/
def skillScanFrames (pid : JVal) : List String → List JVal → Except (List String) (List String)
  | acc, [] => .ok acc
  | acc, f :: fr =>
    match jget f "events" (.jarr []) with
    | .error _ => .error acc
    | .ok events =>
      match toIter events with
      | .error _ => .error acc
      | .ok evs =>
        match skillScanEvents pid acc evs with
        | .error p => .error p
        | .ok acc' => skillScanFrames pid acc' fr

/-- The `try:` block of `extract_skill_order`. -/
def extract_skill_order_try (timeline_data participant_id : JVal) : Except (List String) (List String) :=
  match jget timeline_data "info" (.jobj []) with
  | .error _ => .error []
  | .ok info =>
    match jget info "frames" (.jarr []) with
    | .error _ => .error []
    | .ok frames =>
      match toIter frames with
      | .error _ => .error []
      | .ok fl => skillScanFrames participant_id [] fl

/-- Function `extract_skill_order`: the surrounding `except: pass` returns whatever
`skill_order` holds when the exception is raised. -/
def extract_skill_order (timeline_data participant_id : JVal) : List String :=
  match extract_skill_order_try timeline_data participant_id with
  | .ok l => l
  | .error p => p

/-- Event loop of `extract_starting_items`: collects `itemId` of every
`ITEM_PURCHASED` event of the participant with timestamp `< 30000`.  An
exception carries the items accumulated so far. -/
def startScanEvents (pid : JVal) : List JVal → List JVal → Except (List JVal) (List JVal)
  | acc, [] => .ok acc
  | acc, e :: es =>
    match jget e "type" .jnull with
    | .error _ => .error acc
    | .ok ty =>
      if jeq ty (.jstr "ITEM_PURCHASED") then
        match jget e "participantId" .jnull with
        | .error _ => .error acc
        | .ok pv =>
          if jeq pv pid then
            match jget e "timestamp" (.jint 0) with
            | .error _ => .error acc
            | .ok ts =>
              match jlt ts (.jint 30000) with
              | .error _ => .error acc
              | .ok b =>
                if b then
                  match jget e "itemId" .jnull with
                  | .error _ => .error acc
                  | .ok it => startScanEvents pid (acc ++ [it]) es
                else startScanEvents pid acc es
          else startScanEvents pid acc es
      else startScanEvents pid acc es

/-- The `try:` block of `extract_starting_items`: only the **first** frame is
scanned; an empty/falsy `frames` skips the scan entirely. -/
def extract_starting_items_try (timeline_data participant_id : JVal) : Except (List JVal) (List JVal) :=
  match jget timeline_data "info" (.jobj []) with
  | .error _ => .error []
  | .ok info =>
    match jget info "frames" (.jarr []) with
    | .error _ => .error []
    | .ok frames =>
      if truthy frames then
        match index0 frames with
        | .error _ => .error []
        | .ok first_frame =>
          match jget first_frame "events" (.jarr []) with
          | .error _ => .error []
          | .ok events =>
            match toIter events with
            | .error _ => .error []
            | .ok evs => startScanEvents participant_id [] evs
      else .ok []

/-- Function `extract_starting_items`: the surrounding `except: pass` returns whatever
`starting_items` holds when the exception is raised. -/
def extract_starting_items (timeline_data participant_id : JVal) : List JVal :=
  match extract_starting_items_try timeline_data participant_id with
  | .ok l => l
  | .error p => p

/-- One entry of `perks.styles[...].selections`. -/
structure SelectionR where
  perk : Int

/-- One entry of `perks.styles`. -/
structure StyleR where
  selections : List SelectionR

/-- The `perks.statPerks` dict (`none` models an absent or empty — hence falsy —
`statPerks` dict). -/
structure StatPerksR where
  offense : Int
  flex : Int
  defense : Int

/-- The participant's `perks` structure. -/
structure PerksR where
  styles : List StyleR
  statPerks : Option StatPerksR

/-- One participant record of a match-details payload.  `itemSlots.getD i
none` models `participant.get("item<i>")` (absent key ⇒ `None`). -/
structure Participant where
  championId : Int
  teamPosition : String
  win : Bool
  itemSlots : List (Option Int)
  perks : PerksR
  summoner1Id : Int
  summoner2Id : Int

/-- The known boots item ids (`boots_ids` in the source). -/
def boots_ids : List Int := [3006, 3009, 3020, 3047, 3111, 3117, 3158]

/-- The values read by `participant.get(f"item{i}")` for `i in range(7)`. -/
def slotVals (p : Participant) : List (Option Int) :=
  (List.range 7).map (fun i => p.itemSlots.getD i none)

/-- One iteration of the final-items loop: a truthy positive id is either
routed to `boots` (overwriting it) or appended to the item list. -/
def itemStep (acc : List Int × Option Int) (slot : Option Int) : List Int × Option Int :=
  match slot with
  | none => acc
  | some id =>
    if 0 < id then
      if id ∈ boots_ids then (acc.1, some id) else (acc.1 ++ [id], acc.2)
    else acc

/-- The final-items loop over the 7 item slots. -/
def itemLoop (p : Participant) : List Int × Option Int :=
  (slotVals p).foldl itemStep ([], none)

/-- A normalized build, as the dict assembled by
`extract_build_from_participant`. -/
structure Runes where
  primary : List Int
  secondary : List Int
  shards : List Int
  deriving DecidableEq

/-- See `Runes`. -/
structure Build where
  champion_id : Int
  role : String
  win : Bool
  items : List Int
  starting_items : List Int
  boots : Option Int
  runes : Runes
  skill_order : List String
  summoners : List Int
  deriving DecidableEq

/-- Function `extract_build_from_participant`: items/boots classification, rune trees
(index 0 primary, index 1 secondary), stat shards, summoner spells, and —
when both a timeline and a (truthy) participant id are supplied — the skill
order from the timeline. -/
def extract_build_from_participant (p : Participant) (timeline_data : Option JVal)
    (participant_id : Option JVal) : Build :=
  let ib := itemLoop p
  let primary :=
    match p.perks.styles with
    | [] => []
    | s :: _ => s.selections.map (fun sel => sel.perk)
  let secondary :=
    match p.perks.styles with
    | _ :: s :: _ => s.selections.map (fun sel => sel.perk)
    | _ => []
  let shards :=
    match p.perks.statPerks with
    | some sp => [sp.offense, sp.flex, sp.defense]
    | none => []
  let skill :=
    match timeline_data, participant_id with
    | some t, some pid =>
      if truthy t && truthy pid then extract_skill_order t pid else []
    | _, _ => []
  { champion_id := p.championId
    role := p.teamPosition
    win := p.win
    items := ib.1
    starting_items := []
    boots := ib.2
    runes := { primary := primary, secondary := secondary, shards := shards }
    skill_order := skill
    summoners := [p.summoner1Id, p.summoner2Id] }

/-- The distinct values of `l` in first-occurrence order: the key order of
the dict built by `Counter(l)` (dicts preserve insertion order). -/
def firstOccs {α : Type} [DecidableEq α] : List α → List α
  | [] => []
  | a :: l => a :: (firstOccs l).filter (fun b => decide (b ≠ a))

/-- Stable insertion (by count, descending) used to model the stable
descending sort performed by `Counter.most_common` / `heapq.nlargest`:
`x` is placed before the first element whose count does not exceed `x`'s. -/
def cInsert {α : Type} [DecidableEq α] (l : List α) (x : α) : List α → List α
  | [] => [x]
  | b :: bs => if l.count b ≤ l.count x then x :: b :: bs else b :: cInsert l x bs

/-- Stable sort of the counter keys by count, descending. -/
def cSort {α : Type} [DecidableEq α] (l : List α) : List α → List α
  | [] => []
  | x :: xs => cInsert l x (cSort l xs)

/-- The `most_common` helper of `aggregate_builds`:
`[item for item, _ in Counter(lst).most_common(n)]`, with the empty-input
guard.  `Counter.most_common(n)` is the stable count-descending sort of the
counter's items truncated to `n` (`heapq.nlargest` is documented equivalent
to `sorted(..., reverse=True)[:n]`, which is stable). -/
def mostCommon {α : Type} [DecidableEq α] (l : List α) (n : Nat) : List α :=
  match l with
  | [] => []
  | _ => (cSort l (firstOccs l)).take n

/-- The `all_items` multiset: the final item ids flattened across all builds. -/
def allItems (builds : List Build) : List Int :=
  builds.flatMap (fun b => b.items)

/-- The `all_starting` multiset. -/
def allStarting (builds : List Build) : List Int :=
  builds.flatMap (fun b => b.starting_items)

/-- The `all_boots` multiset: only truthy boots fields are appended
(`if build.get("boots")`). -/
def allBoots (builds : List Build) : List Int :=
  builds.flatMap (fun b =>
    match b.boots with
    | some x => if x ≠ 0 then [x] else []
    | none => [])

/-- The `all_primary_runes` multiset. -/
def allPrimary (builds : List Build) : List Int :=
  builds.flatMap (fun b => b.runes.primary)

/-- The `all_secondary_runes` multiset. -/
def allSecondary (builds : List Build) : List Int :=
  builds.flatMap (fun b => b.runes.secondary)

/-- The `all_shards` multiset: falsy (zero) shard entries are dropped
(`[s for s in ... if s]`). -/
def allShards (builds : List Build) : List Int :=
  builds.flatMap (fun b => b.runes.shards.filter (fun s => decide (s ≠ 0)))

/-- The `all_skill_orders` multiset: one 3-truncated tuple per build with a truthy
(non-empty) `skill_order` (`if build.get("skill_order")`). -/
def allSkillOrders (builds : List Build) : List (List String) :=
  builds.flatMap (fun b =>
    if b.skill_order ≠ [] then [b.skill_order.take 3] else [])

/-- The aggregated build returned by `aggregate_builds`. -/
structure AggItems where
  core : List Int
  starting : List Int
  boots : List Int
  deriving DecidableEq

/-- See `AggItems`. -/
structure AggRunes where
  primary : List Int
  secondary : List Int
  shards : List Int
  deriving DecidableEq

/-- See `AggItems`. -/
structure Agg where
  items : AggItems
  runes : AggRunes
  skill_order : List String
  sample_size : Nat
  deriving DecidableEq

/-- Function `aggregate_builds`: `None` on an empty input, otherwise the per-field
`most_common` rankings plus the single most frequent 3-skill opening. -/
def aggregate_builds (builds : List Build) : Option Agg :=
  match builds with
  | [] => none
  | _ =>
    let skill_order :=
      match mostCommon (allSkillOrders builds) 1 with
      | [] => []
      | t :: _ => t
    some
      { items :=
          { core := mostCommon (allItems builds) 6
            starting := mostCommon (allStarting builds) 3
            boots := mostCommon (allBoots builds) 1 }
        runes :=
          { primary := mostCommon (allPrimary builds) 4
            secondary := mostCommon (allSecondary builds) 2
            shards := mostCommon (allShards builds) 3 }
        skill_order := skill_order
        sample_size := builds.length }

/-- The TTL: `CACHE_DURATION = 3600 * 6` seconds. -/
def CACHE_DURATION : Int := 3600 * 6

/-- Function `get_cache_path`: `f"build_cache_{champion_id}_{role}.json"` (the
constant `CACHE_DIR` directory component, identical for every key, is
omitted from the model). -/
def get_cache_path (champion_id role : String) : String :=
  "build_cache_" ++ champion_id ++ "_" ++ role ++ ".json"

/-- The on-disk state of one cache file: either readable, valid JSON with
the given parsed value, or a file whose `open`/`json.load` raises
(unreadable or malformed JSON). -/
inductive FileContent where
  | good (v : JVal)
  | bad

/-- The cache directory: an association from path to file state; a missing
path is an absent file (`os.path.exists` false).  `json.dump`/`json.load`
round-trip on JSON values is modeled as the identity. -/
def CacheFS : Type := List (String × FileContent)

/-- Function `load_build_cache`: returns the `data` member while the entry is fresh
(`time.time() - cache.get("timestamp", 0) < CACHE_DURATION`); every other
path — absent file, unreadable file, malformed JSON, non-dict payload,
non-numeric timestamp, stale entry — falls through to `return None`
(modeled as `jnull`, Python `None`; a hit whose `data` member is absent also
yields `None` via the `.get` default). -/
def load_build_cache (fs : CacheFS) (champion_id role : String) (now : Int) : JVal :=
  match fs.lookup (get_cache_path champion_id role) with
  | none => .jnull
  | some .bad => .jnull
  | some (.good cache) =>
    match jget cache "timestamp" (.jint 0) with
    | .error _ => .jnull
    | .ok ts =>
      match toNum ts with
      | .error _ => .jnull
      | .ok tsn =>
        if now - tsn < CACHE_DURATION then
          match jget cache "data" .jnull with
          | .error _ => .jnull
          | .ok d => d
        else .jnull

/-- Function `save_build_cache`: writes (overwrites) the cache file for the key with
a fresh timestamp; its `try/except` only guards I/O failures, which are not
injected in this model. -/
def save_build_cache (fs : CacheFS) (champion_id role : String) (now : Int) (data : JVal) : CacheFS :=
  (get_cache_path champion_id role,
    FileContent.good (.jobj
      [("timestamp", .jint now),
       ("champion_id", .jstr champion_id),
       ("role", .jstr role),
       ("data", data)])) :: fs

/-- The `ROLE_MAPPING` table. -/
def ROLE_MAPPING : List (String × String) :=
  [("top", "TOP"), ("jungle", "JUNGLE"), ("mid", "MIDDLE"),
   ("adc", "BOTTOM"), ("support", "UTILITY")]

/-- The aggregated build as the JSON dict built by `aggregate_builds` (what
`save_build_cache` serializes and `get_builds_from_api` returns). -/
def encodeAgg (a : Agg) : JVal :=
  .jobj
    [("items", .jobj
        [("core", .jarr (a.items.core.map (fun i => .jint i))),
         ("starting", .jarr (a.items.starting.map (fun i => .jint i))),
         ("boots", .jarr (a.items.boots.map (fun i => .jint i)))]),
     ("runes", .jobj
        [("primary", .jarr (a.runes.primary.map (fun i => .jint i))),
         ("secondary", .jarr (a.runes.secondary.map (fun i => .jint i))),
         ("shards", .jarr (a.runes.shards.map (fun i => .jint i)))]),
     ("skill_order", .jarr (a.skill_order.map (fun s => .jstr s))),
     ("sample_size", .jint (Int.ofNat a.sample_size))]

/-- The external world consumed by the orchestrator.  `championMapping` is
the name → numeric-key table fetched by `get_champion_key_mapping`;
`scanBuilds` abstracts the network scan over high-elo players and their
recent matches (lines 385–428 of the source: `get_high_elo_players`,
`get_puuid_from_summoner_id`, `get_recent_matches`, `get_match_details`,
`get_match_timeline` and the participant filter), returning the accumulated
normalized builds for a champion key, role label, region and match budget. -/
structure Env where
  championMapping : List (String × Int)
  scanBuilds : Int → String → String → Nat → List Build

/-- Function `get_builds_from_api`: credential guard, cache check, champion-key
resolution, network scan, aggregation, cache write.  Returns the value the
Python function returns (`None` as `jnull`) paired with the cache state
after the call. -/
def get_builds_from_api (apiKey : String) (env : Env) (region : String) (fs : CacheFS)
    (now : Int) (champion_id role : String) (max_matches : Nat) : JVal × CacheFS :=
  if apiKey = "" then (.jnull, fs)
  else
    let cached := load_build_cache fs champion_id role now
    if truthy cached then (cached, fs)
    else
      match env.championMapping.lookup champion_id.toLower with
      | none => (.jnull, fs)
      | some champion_key =>
        if champion_key = 0 then (.jnull, fs)
        else
          let target_role := (ROLE_MAPPING.lookup role).getD "MIDDLE"
          let builds := env.scanBuilds champion_key target_role region max_matches
          match builds with
          | [] => (.jnull, fs)
          | _ =>
            match aggregate_builds builds with
            | none => (.jnull, fs)
            | some aggregated =>
              (encodeAgg aggregated,
               save_build_cache fs champion_id role now (encodeAgg aggregated))

/-- Position of the first occurrence of `a` in `l` (the "first-encountered"
order of the spec; `l.length` when `a` does not occur). -/
def firstIdx {α : Type} [DecidableEq α] (l : List α) (a : α) : Nat :=
  match l with
  | [] => 0
  | b :: bs => if b = a then 0 else firstIdx bs a + 1

/-- Spec-side ranking order on the values of the multiset `l`: strictly more
frequent first; at equal frequency, first-encountered first. -/
def rankLt {α : Type} [DecidableEq α] (l : List α) (a b : α) : Prop :=
  l.count b < l.count a ∨ (l.count a = l.count b ∧ firstIdx l a < firstIdx l b)

/-- Spec-side statement that `out` is "the `n` most frequent distinct values
of the multiset `l`, ordered frequency-descending with ties broken by
first-encountered order": `out` is the `n`-prefix of a duplicate-free
enumeration of exactly the values of `l`, sorted by `rankLt`. -/
def SpecRankedTopN {α : Type} [DecidableEq α] (l : List α) (n : Nat) (out : List α) : Prop :=
  ∃ ranking : List α,
    ranking.Nodup ∧
    (∀ a, a ∈ ranking ↔ a ∈ l) ∧
    ranking.Pairwise (rankLt l) ∧
    out = ranking.take n

/-- Spec-side statement that `out` is the single most frequent tuple of the
multiset `tuples` (ties broken first-encountered), unpacked back to a list —
the empty list when `tuples` is empty. -/
def SpecTopTuple (tuples : List (List String)) (out : List String) : Prop :=
  ∃ ranking : List (List String),
    ranking.Nodup ∧
    (∀ t, t ∈ ranking ↔ t ∈ tuples) ∧
    ranking.Pairwise (rankLt tuples) ∧
    out = ranking.headD []

/-- Modelled from the claim's words (for refutation): the aggregated skill
order as "the single most frequent entry of a frequency table built over the
first three elements of **each** build's skill-order sequence" — i.e. with
builds whose skill order is empty contributing the empty tuple, which the
source skips. -/
def claimSkillAgg (builds : List Build) : List String :=
  match mostCommon (builds.map (fun b => b.skill_order.take 3)) 1 with
  | [] => []
  | t :: _ => t

/-- The value a slot contributes, if any: present and truthy-positive
(`if item_id and item_id > 0`). -/
def keptVal (s : Option Int) : Option Int :=
  match s with
  | some v => if 0 < v then some v else none
  | none => none

/-- The kept slot values that hit the boots allowlist, in slot order. -/
def bootsVals (slots : List (Option Int)) : List Int :=
  slots.filterMap (fun s =>
    match keptVal s with
    | some v => if v ∈ boots_ids then some v else none
    | none => none)

/-- The kept slot values outside the boots allowlist, in slot order. -/
def nonBootsVals (slots : List (Option Int)) : List Int :=
  slots.filterMap (fun s =>
    match keptVal s with
    | some v => if v ∈ boots_ids then none else some v
    | none => none)

/-- Number of populated nonzero item slots. -/
def populatedCount (p : Participant) : Nat :=
  (slotVals p).countP (fun s =>
    match s with
    | some v => decide (v ≠ 0)
    | none => false)

/-- The claim's count: populated nonzero slots, counting duplicate
boots-allowlisted slots only once. -/
def claimSlotCount (p : Participant) : Nat :=
  (slotVals p).countP (fun s =>
    match s with
    | some v => decide (v ≠ 0 ∧ v ∉ boots_ids)
    | none => false) +
  min 1 ((slotVals p).countP (fun s =>
    match s with
    | some v => decide (v ≠ 0 ∧ v ∈ boots_ids)
    | none => false))

/-- A well-formed timeline event (the shape the match-history source
produces). -/
structure SEvent where
  type : String
  participantId : Int
  timestamp : Int
  itemId : Int

/-- A well-formed timeline: frames, each a list of events. -/
structure STimeline where
  frames : List (List SEvent)

/-- A well-formed event as JSON. -/
def encEvent (e : SEvent) : JVal :=
  .jobj
    [("type", .jstr e.type),
     ("participantId", .jint e.participantId),
     ("timestamp", .jint e.timestamp),
     ("itemId", .jint e.itemId)]

/-- A well-formed frame as JSON. -/
def encFrame (evs : List SEvent) : JVal :=
  .jobj [("events", .jarr (evs.map encEvent))]

/-- A well-formed timeline as the JSON payload of the timeline endpoint. -/
def encTimeline (t : STimeline) : JVal :=
  .jobj [("info", .jobj [("frames", .jarr (t.frames.map encFrame))])]

/-- A build with every field empty, to be overridden per example. -/
def baseBuild : Build :=
  { champion_id := 0, role := "", win := false, items := [],
    starting_items := [], boots := none,
    runes := { primary := [], secondary := [], shards := [] },
    skill_order := [], summoners := [] }

/-- Three builds with core items `[[A,B,C],[A,B,D],[A,E,F]]` for
`A..F = 1..6` (the spec's worked example). -/
def exampleBuilds : List Build :=
  [{ baseBuild with items := [1, 2, 3] },
   { baseBuild with items := [1, 2, 4] },
   { baseBuild with items := [1, 5, 6] }]

/-- Three builds with skill sequences `[Q,W,E]`, `[Q,W,E]`, `[Q,E,W]`. -/
def skillExampleBuilds : List Build :=
  [{ baseBuild with skill_order := ["Q", "W", "E"] },
   { baseBuild with skill_order := ["Q", "W", "E"] },
   { baseBuild with skill_order := ["Q", "E", "W"] }]

/-- Two builds with an empty skill order plus one with `["Q"]`: the input on
which the claim's "table over each build's sequence" reading diverges from
the source's skipping of empty sequences. -/
def cexSkillBuilds : List Build :=
  [baseBuild, baseBuild, { baseBuild with skill_order := ["Q"] }]

/-- A participant for the extractor witnesses: slot 0 boots, slot 1 a
regular item, slot 2 a second boots id, slot 4 an empty (0) slot. -/
def exampleParticipant : Participant :=
  { championId := 266, teamPosition := "TOP", win := true,
    itemSlots := [some 3006, some 1055, some 3047, none, some 0, none, none],
    perks := { styles := [], statPerks := none },
    summoner1Id := 4, summoner2Id := 12 }

/-- A first-frame event list whose second entry is a bare number: iterating
reaches it after a valid purchase has been collected, and its `.get` raises.
The items collected before the failure are visible in the error payload. -/
def cexTimeline : JVal :=
  .jobj
    [("info", .jobj
        [("frames", .jarr
            [.jobj [("events", .jarr
                [encEvent { type := "ITEM_PURCHASED", participantId := 1,
                            timestamp := 100, itemId := 1055 },
                 .jint 7])]])])]

/-- A truthy aggregated-build payload for the cache examples. -/
def examplePayload : JVal :=
  .jobj [("items", .jobj [("core", .jarr [.jint 3161])])]

/-- A cache directory holding a fresh entry for `("aatrox", "top")` written
at time 1000. -/
def exampleFS : CacheFS :=
  save_build_cache [] "aatrox" "top" 1000 examplePayload

/-- A concrete environment: `aatrox ↦ 266`, and a network scan that finds
no builds. -/
def exampleEnv : Env :=
  { championMapping := [("aatrox", 266)],
    scanBuilds := fun _ _ _ _ => [] }

end FocusApp

namespace FocusApp

/-- Inserting with `cInsert` inserts `x` somewhere: the result is a permutation. -/
theorem cInsert_perm {α : Type} [DecidableEq α] (l : List α) (x : α) (ys : List α) :
    (cInsert l x ys).Perm (x :: ys) := by
  induction ys with
  | nil => exact List.Perm.refl _
  | cons b bs ih =>
    rw [cInsert]
    split
    · exact List.Perm.refl _
    · exact (List.Perm.cons b ih).trans (List.Perm.swap x b bs)

/-- Sorting with `cSort` permutes its input. -/
theorem cSort_perm {α : Type} [DecidableEq α] (l : List α) (xs : List α) :
    (cSort l xs).Perm xs := by
  induction xs with
  | nil => exact List.Perm.refl _
  | cons x xs ih => exact (cInsert_perm l x (cSort l xs)).trans (List.Perm.cons x ih)

/-- Inserting an element that came (in first-encountered order) before every
element of an already ranked list keeps the list ranked. -/
theorem cInsert_pairwise {α : Type} [DecidableEq α] (l : List α) (x : α) (ys : List α)
    (hys : ys.Pairwise (rankLt l)) (hx : ∀ b ∈ ys, firstIdx l x < firstIdx l b) :
    (cInsert l x ys).Pairwise (rankLt l) := by
  induction ys with
  | nil => simp [cInsert]
  | cons b bs ih =>
    rw [cInsert]
    obtain ⟨hb, hbs⟩ := List.pairwise_cons.mp hys
    split
    case isTrue hc =>
      refine List.pairwise_cons.mpr ⟨?_, hys⟩
      intro c hcmem
      rcases List.mem_cons.mp hcmem with rfl | hcmem
      · rcases lt_or_eq_of_le hc with h | h
        · exact Or.inl h
        · exact Or.inr ⟨h.symm, hx c (List.mem_cons_self c bs)⟩
      · have hcb : l.count c ≤ l.count b := by
          rcases hb c hcmem with h | ⟨h, _⟩
          · exact le_of_lt h
          · exact le_of_eq h.symm
        rcases lt_or_eq_of_le (le_trans hcb hc) with h | h
        · exact Or.inl h
        · exact Or.inr ⟨h.symm, hx c (List.mem_cons_of_mem b hcmem)⟩
    case isFalse hc =>
      refine List.pairwise_cons.mpr
        ⟨?_, ih hbs (fun c hcm => hx c (List.mem_cons_of_mem b hcm))⟩
      intro c hcmem
      rcases List.mem_cons.mp ((cInsert_perm l x bs).mem_iff.mp hcmem) with rfl | hcm
      · exact Or.inl (Nat.lt_of_not_le hc)
      · exact hb c hcm

/-- Sorting a list given in strictly increasing first-encountered order
yields a list ranked by `rankLt` (count descending, stable). -/
theorem cSort_pairwise {α : Type} [DecidableEq α] (l : List α) (xs : List α)
    (h : xs.Pairwise (fun a b => firstIdx l a < firstIdx l b)) :
    (cSort l xs).Pairwise (rankLt l) := by
  induction xs with
  | nil => simp [cSort]
  | cons x xs ih =>
    obtain ⟨hx, hxs⟩ := List.pairwise_cons.mp h
    exact cInsert_pairwise l x (cSort l xs) (ih hxs)
      (fun b hb => hx b ((cSort_perm l xs).mem_iff.mp hb))

/-- Membership: `firstOccs` enumerates exactly the values of `l`. -/
theorem mem_firstOccs {α : Type} [DecidableEq α] (l : List α) (a : α) :
    a ∈ firstOccs l ↔ a ∈ l := by
  induction l with
  | nil => simp [firstOccs]
  | cons b bs ih =>
    by_cases hab : a = b
    · simp [firstOccs, hab]
    · simp [firstOccs, List.mem_filter, hab, ih]

/-- Distinctness: `firstOccs` has no duplicates. -/
theorem firstOccs_nodup {α : Type} [DecidableEq α] (l : List α) :
    (firstOccs l).Nodup := by
  induction l with
  | nil => simp [firstOccs]
  | cons b bs ih =>
    rw [firstOccs]
    refine List.nodup_cons.mpr ⟨?_, ih.filter _⟩
    intro hmem
    rw [List.mem_filter] at hmem
    simp at hmem

/-- Order: `firstOccs` is listed in strictly increasing first-occurrence order. -/
theorem firstOccs_pairwise {α : Type} [DecidableEq α] (l : List α) :
    (firstOccs l).Pairwise (fun a b => firstIdx l a < firstIdx l b) := by
  induction l with
  | nil => simp [firstOccs]
  | cons c cs ih =>
    rw [firstOccs]
    refine List.pairwise_cons.mpr ⟨?_, ?_⟩
    · intro b hb
      rw [List.mem_filter] at hb
      have hbc : ¬(c = b) := by
        intro h
        simp [h] at hb
      simp [firstIdx, hbc]
    · refine (ih.filter _).imp_of_mem ?_
      intro a b ha hb hab
      rw [List.mem_filter] at ha hb
      have hca : ¬(c = a) := by intro h; simp [h] at ha
      have hcb : ¬(c = b) := by intro h; simp [h] at hb
      simpa [firstIdx, hca, hcb] using hab

/-- Correctness: `mostCommon` satisfies the spec-side top-`n` ranking property. -/
theorem mostCommon_ranked {α : Type} [DecidableEq α] (l : List α) (n : Nat) :
    SpecRankedTopN l n (mostCommon l n) := by
  cases l with
  | nil => exact ⟨[], List.nodup_nil, by simp, List.Pairwise.nil, by simp [mostCommon]⟩
  | cons c cs =>
    refine ⟨cSort (c :: cs) (firstOccs (c :: cs)), ?_, ?_, ?_, rfl⟩
    · exact ((cSort_perm _ _).nodup_iff).mpr (firstOccs_nodup _)
    · intro a
      rw [(cSort_perm _ _).mem_iff, mem_firstOccs]
    · exact cSort_pairwise _ _ (firstOccs_pairwise _)

end FocusApp

namespace FocusApp

/-- Helper: the single-most-frequent-tuple selection satisfies
`SpecTopTuple`. -/
theorem specTopTuple_of_mostCommon (tuples : List (List String)) :
    SpecTopTuple tuples
      (match mostCommon tuples 1 with
       | [] => []
       | t :: _ => t) := by
  obtain ⟨ranking, h1, h2, h3, h4⟩ := mostCommon_ranked tuples 1
  refine ⟨ranking, h1, h2, h3, ?_⟩
  rw [h4]
  cases ranking <;> simp

/-- C1: for every non-empty list of builds, each multiset field of the
aggregate is the top-N ranking (frequency-descending, ties first-encountered)
of the field flattened across all builds; on the worked example the ranked
core is `[A,B,C,D,E,F]`, so the top 2 are `[A,B]` with the tie resolved to
`C`. -/
theorem aggregate_builds_ranks (builds : List Build) (h : builds ≠ []) :
    ∃ r, aggregate_builds builds = some r ∧
      SpecRankedTopN (allItems builds) 6 r.items.core ∧
      SpecRankedTopN (allStarting builds) 3 r.items.starting ∧
      SpecRankedTopN (allBoots builds) 1 r.items.boots ∧
      SpecRankedTopN (allPrimary builds) 4 r.runes.primary ∧
      SpecRankedTopN (allSecondary builds) 2 r.runes.secondary ∧
      SpecRankedTopN (allShards builds) 3 r.runes.shards ∧
      (aggregate_builds exampleBuilds).map (fun a => a.items.core) =
        some [1, 2, 3, 4, 5, 6] := by
  match builds, h with
  | b :: bs, _ =>
    exact ⟨_, rfl, mostCommon_ranked _ _, mostCommon_ranked _ _, mostCommon_ranked _ _,
      mostCommon_ranked _ _, mostCommon_ranked _ _, mostCommon_ranked _ _, rfl⟩

theorem aggregate_builds_ranks_witness :
    ∃ r, aggregate_builds exampleBuilds = some r ∧
      SpecRankedTopN (allItems exampleBuilds) 6 r.items.core ∧
      SpecRankedTopN (allStarting exampleBuilds) 3 r.items.starting ∧
      SpecRankedTopN (allBoots exampleBuilds) 1 r.items.boots ∧
      SpecRankedTopN (allPrimary exampleBuilds) 4 r.runes.primary ∧
      SpecRankedTopN (allSecondary exampleBuilds) 2 r.runes.secondary ∧
      SpecRankedTopN (allShards exampleBuilds) 3 r.runes.shards ∧
      (aggregate_builds exampleBuilds).map (fun a => a.items.core) =
        some [1, 2, 3, 4, 5, 6] :=
  aggregate_builds_ranks exampleBuilds (by simp [exampleBuilds])

/-- C2 counterexample: on two empty-skill builds plus one `["Q"]` build
the source aggregates to `["Q"]`, while the claim's "table over each build's
sequence" yields `[]`. -/
theorem skill_order_claim_cex :
    (aggregate_builds cexSkillBuilds).map (fun r => r.skill_order) = some ["Q"] ∧
    claimSkillAgg cexSkillBuilds = [] ∧
    (["Q"] : List String) ≠ [] := ⟨rfl, rfl, by simp⟩

/-- C2 (amended): the aggregated skill order is the most frequent (ties
first-encountered) among the 3-truncated skill tuples of the builds with a
non-empty skill order — empty skill orders are skipped; the worked example
`[Q,W,E], [Q,W,E], [Q,E,W]` has `[Q,W,E]` with count 2. -/
theorem aggregate_skill_order (builds : List Build) (h : builds ≠ []) :
    ∃ r, aggregate_builds builds = some r ∧
      SpecTopTuple (allSkillOrders builds) r.skill_order ∧
      (allSkillOrders skillExampleBuilds).count ["Q", "W", "E"] = 2 ∧
      (aggregate_builds skillExampleBuilds).map (fun r => r.skill_order) =
        some ["Q", "W", "E"] := by
  match builds, h with
  | b :: bs, _ =>
    exact ⟨_, rfl, specTopTuple_of_mostCommon _, rfl, rfl⟩

theorem aggregate_skill_order_witness :
    ∃ r, aggregate_builds skillExampleBuilds = some r ∧
      SpecTopTuple (allSkillOrders skillExampleBuilds) r.skill_order ∧
      (allSkillOrders skillExampleBuilds).count ["Q", "W", "E"] = 2 ∧
      (aggregate_builds skillExampleBuilds).map (fun r => r.skill_order) =
        some ["Q", "W", "E"] :=
  aggregate_skill_order skillExampleBuilds (by simp [skillExampleBuilds])

/-- C9: aggregating the empty build list yields `None`. -/
theorem aggregate_builds_empty : aggregate_builds [] = none := rfl

end FocusApp

namespace FocusApp

/-- The final-items fold, characterized: items collected are the kept
non-boots values appended in slot order; the boots cell holds the last kept
boots value, else its initial content. -/
theorem itemStep_fold (slots : List (Option Int)) (acc : List Int × Option Int) :
    slots.foldl itemStep acc =
      (acc.1 ++ nonBootsVals slots,
       match (bootsVals slots).getLast? with
       | some v => some v
       | none => acc.2) := by
  induction slots generalizing acc with
  | nil => simp [nonBootsVals, bootsVals]
  | cons s ss ih =>
    rw [List.foldl_cons, ih]
    cases s with
    | none => simp [itemStep, nonBootsVals, bootsVals, keptVal]
    | some v =>
      by_cases hv : 0 < v
      · by_cases hb : v ∈ boots_ids
        · have hboot : bootsVals (some v :: ss) = v :: bootsVals ss := by
            simp [bootsVals, keptVal, hv, hb]
          have hnon : nonBootsVals (some v :: ss) = nonBootsVals ss := by
            simp [nonBootsVals, keptVal, hv, hb]
          rw [hboot, hnon]
          simp only [itemStep, hv, hb, if_pos, if_true]
          cases hss : bootsVals ss with
          | nil => simp
          | cons w ws =>
            cases h2 : (w :: ws).getLast? with
            | none => simp at h2
            | some u => rw [List.getLast?_cons_cons, h2]
        · have hboot : bootsVals (some v :: ss) = bootsVals ss := by
            simp [bootsVals, keptVal, hv, hb]
          have hnon : nonBootsVals (some v :: ss) = v :: nonBootsVals ss := by
            simp [nonBootsVals, keptVal, hv, hb]
          rw [hboot, hnon]
          simp [itemStep, hv, hb]
      · have hboot : bootsVals (some v :: ss) = bootsVals ss := by
          simp [bootsVals, keptVal, hv]
        have hnon : nonBootsVals (some v :: ss) = nonBootsVals ss := by
          simp [nonBootsVals, keptVal, hv]
        rw [hboot, hnon]
        simp [itemStep, hv]

/-- Kept non-boots values never lie on the allowlist. -/
theorem nonBootsVals_not_boots (slots : List (Option Int)) (x : Int)
    (hx : x ∈ nonBootsVals slots) : x ∉ boots_ids := by
  rw [nonBootsVals, List.mem_filterMap] at hx
  obtain ⟨s, _, hs⟩ := hx
  cases s with
  | none => simp [keptVal] at hs
  | some v =>
    by_cases hv : 0 < v
    · by_cases hb : v ∈ boots_ids
      · simp [keptVal, hv, hb] at hs
      · simp [keptVal, hv, hb] at hs
        exact hs ▸ hb
    · simp [keptVal, hv] at hs

/-- Kept boots values always lie on the allowlist. -/
theorem bootsVals_mem (slots : List (Option Int)) (x : Int)
    (hx : x ∈ bootsVals slots) : x ∈ boots_ids := by
  rw [bootsVals, List.mem_filterMap] at hx
  obtain ⟨s, _, hs⟩ := hx
  cases s with
  | none => simp [keptVal] at hs
  | some v =>
    by_cases hv : 0 < v
    · by_cases hb : v ∈ boots_ids
      · simp [keptVal, hv, hb] at hs
        exact hs ▸ hb
      · simp [keptVal, hv, hb] at hs
    · simp [keptVal, hv] at hs

/-- C3: the extractor never lets an allowlisted id into the item list;
the boots field holds exactly the last kept allowlisted slot value (if any),
which is always on the allowlist — at most one boots id by construction. -/
theorem extract_boots_classification (p : Participant) (t pid : Option JVal) :
    (∀ x ∈ (extract_build_from_participant p t pid).items, x ∉ boots_ids) ∧
    (extract_build_from_participant p t pid).boots = (bootsVals (slotVals p)).getLast? ∧
    (∀ x, (extract_build_from_participant p t pid).boots = some x → x ∈ boots_ids) := by
  have hfold := itemStep_fold (slotVals p) ([], none)
  have hitems : (extract_build_from_participant p t pid).items = nonBootsVals (slotVals p) := by
    simp [extract_build_from_participant, itemLoop, hfold]
  have hboots : (extract_build_from_participant p t pid).boots =
      (bootsVals (slotVals p)).getLast? := by
    simp only [extract_build_from_participant, itemLoop, hfold]
    cases (bootsVals (slotVals p)).getLast? <;> rfl
  refine ⟨?_, hboots, ?_⟩
  · intro x hx
    rw [hitems] at hx
    exact nonBootsVals_not_boots _ x hx
  · intro x hx
    rw [hboots] at hx
    exact bootsVals_mem _ x (List.mem_of_getLast?_eq_some hx)

theorem extract_boots_classification_witness :
    (1055 : Int) ∉ boots_ids ∧
    (extract_build_from_participant exampleParticipant none none).boots = some 3047 ∧
    (3047 : Int) ∈ boots_ids :=
  ⟨(extract_boots_classification exampleParticipant none none).1 1055 (by decide),
   ((extract_boots_classification exampleParticipant none none).2.1).trans rfl,
   (extract_boots_classification exampleParticipant none none).2.2 3047
     (((extract_boots_classification exampleParticipant none none).2.1).trans rfl)⟩

end FocusApp

namespace FocusApp

/-- With non-negative slot values, the kept non-boots values are counted by
the "populated nonzero non-boots" slot predicate. -/
theorem nonBootsVals_length (slots : List (Option Int))
    (hnn : ∀ v : Int, some v ∈ slots → 0 ≤ v) :
    (nonBootsVals slots).length =
      slots.countP (fun s =>
        match s with
        | some v => decide (v ≠ 0 ∧ v ∉ boots_ids)
        | none => false) := by
  induction slots with
  | nil => simp [nonBootsVals]
  | cons s ss ih =>
    have hss : ∀ v : Int, some v ∈ ss → 0 ≤ v :=
      fun v hv => hnn v (List.mem_cons_of_mem s hv)
    rw [List.countP_cons]
    cases s with
    | none =>
      have h1 : nonBootsVals (none :: ss) = nonBootsVals ss := by
        simp [nonBootsVals, keptVal]
      rw [h1, ih hss]
      simp
    | some v =>
      have hv0 : 0 ≤ v := hnn v (List.mem_cons_self _ _)
      by_cases hz : v = 0
      · subst hz
        have h1 : nonBootsVals (some 0 :: ss) = nonBootsVals ss := by
          simp [nonBootsVals, keptVal]
        rw [h1, ih hss]
        simp
      · have hv : 0 < v := lt_of_le_of_ne hv0 (Ne.symm hz)
        by_cases hb : v ∈ boots_ids
        · have h1 : nonBootsVals (some v :: ss) = nonBootsVals ss := by
            simp [nonBootsVals, keptVal, hv, hb]
          rw [h1, ih hss]
          simp [hz, hb]
        · have h1 : nonBootsVals (some v :: ss) = v :: nonBootsVals ss := by
            simp [nonBootsVals, keptVal, hv, hb]
          rw [h1, List.length_cons, ih hss]
          simp [hz, hb]

/-- With non-negative slot values, the kept boots values are counted by the
"populated nonzero boots" slot predicate. -/
theorem bootsVals_length (slots : List (Option Int))
    (hnn : ∀ v : Int, some v ∈ slots → 0 ≤ v) :
    (bootsVals slots).length =
      slots.countP (fun s =>
        match s with
        | some v => decide (v ≠ 0 ∧ v ∈ boots_ids)
        | none => false) := by
  induction slots with
  | nil => simp [bootsVals]
  | cons s ss ih =>
    have hss : ∀ v : Int, some v ∈ ss → 0 ≤ v :=
      fun v hv => hnn v (List.mem_cons_of_mem s hv)
    rw [List.countP_cons]
    cases s with
    | none =>
      have h1 : bootsVals (none :: ss) = bootsVals ss := by
        simp [bootsVals, keptVal]
      rw [h1, ih hss]
      simp
    | some v =>
      have hv0 : 0 ≤ v := hnn v (List.mem_cons_self _ _)
      by_cases hz : v = 0
      · subst hz
        have h1 : bootsVals (some 0 :: ss) = bootsVals ss := by
          simp [bootsVals, keptVal]
        rw [h1, ih hss]
        simp
      · have hv : 0 < v := lt_of_le_of_ne hv0 (Ne.symm hz)
        by_cases hb : v ∈ boots_ids
        · have h1 : bootsVals (some v :: ss) = v :: bootsVals ss := by
            simp [bootsVals, keptVal, hv, hb]
          rw [h1, List.length_cons, ih hss]
          simp [hz, hb]
        · have h1 : bootsVals (some v :: ss) = bootsVals ss := by
            simp [bootsVals, keptVal, hv, hb]
          rw [h1, ih hss]
          simp [hz, hb]

/-- C4: for a participant with fewer than 7 populated nonzero slots (and
item ids non-negative, as item ids are), the extracted item-list length plus
one for a set boots field equals the populated nonzero slot count with
duplicate boots-allowlisted slots counted once. -/
theorem extract_item_count (p : Participant) (t pid : Option JVal)
    (_h7 : populatedCount p < 7)
    (hnn : ∀ v : Int, some v ∈ slotVals p → 0 ≤ v) :
    (extract_build_from_participant p t pid).items.length +
      (if (extract_build_from_participant p t pid).boots.isSome then 1 else 0) =
      claimSlotCount p := by
  have hfold := itemStep_fold (slotVals p) ([], none)
  have hitems : (extract_build_from_participant p t pid).items = nonBootsVals (slotVals p) := by
    simp [extract_build_from_participant, itemLoop, hfold]
  have hboots : (extract_build_from_participant p t pid).boots =
      (bootsVals (slotVals p)).getLast? := by
    simp only [extract_build_from_participant, itemLoop, hfold]
    cases (bootsVals (slotVals p)).getLast? <;> rfl
  rw [hitems, hboots, claimSlotCount, ← nonBootsVals_length _ hnn, ← bootsVals_length _ hnn]
  cases hb : bootsVals (slotVals p) with
  | nil => simp
  | cons w ws => simp [min_def]

theorem extract_item_count_witness :
    (extract_build_from_participant exampleParticipant none none).items.length +
      (if (extract_build_from_participant exampleParticipant none none).boots.isSome
        then 1 else 0) =
      claimSlotCount exampleParticipant :=
  extract_item_count exampleParticipant none none (by decide)
    (by
      intro v hv
      simp only [slotVals, exampleParticipant, List.range_succ] at hv
      simp at hv
      rcases hv with h | h | h | h <;> simp [h])

end FocusApp


namespace FocusApp

/-- Python `==` between strings reduces to string equality. -/
theorem jeq_jstr (a b : String) : jeq (.jstr a) (.jstr b) = (a == b) := rfl

/-- Python `==` between integers reduces to integer equality. -/
theorem jeq_jint (a b : Int) : jeq (.jint a) (.jint b) = (a == b) := rfl

/-- Python `<` between integers reduces to integer comparison. -/
theorem jlt_jint (a b : Int) : jlt (.jint a) (.jint b) = .ok (decide (a < b)) := rfl

/-- Scanning well-formed encoded events collects, in order, the item ids of
the participant's purchase events below the 30 000 ms cutoff. -/
theorem startScanEvents_enc (pid : Int) (evs : List SEvent) (acc : List JVal) :
    startScanEvents (.jint pid) acc (evs.map encEvent) =
      .ok (acc ++ (evs.filter (fun e =>
          e.type == "ITEM_PURCHASED" && e.participantId == pid &&
          decide (e.timestamp < 30000))).map (fun e => JVal.jint e.itemId)) := by
  induction evs generalizing acc with
  | nil => simp [startScanEvents]
  | cons e es ih =>
    have hty : jget (encEvent e) "type" .jnull = .ok (.jstr e.type) := rfl
    have hpid : jget (encEvent e) "participantId" .jnull = .ok (.jint e.participantId) := rfl
    have hts : jget (encEvent e) "timestamp" (.jint 0) = .ok (.jint e.timestamp) := rfl
    have hit : jget (encEvent e) "itemId" .jnull = .ok (.jint e.itemId) := rfl
    rw [List.map_cons]
    simp only [startScanEvents, hty, hpid, hts, hit, jlt_jint, jeq_jstr, jeq_jint]
    by_cases h1 : e.type == "ITEM_PURCHASED" <;>
      by_cases h2 : e.participantId == pid <;>
        by_cases h3 : e.timestamp < 30000 <;>
          simp [h1, h2, h3, ih, List.filter_cons]

/-- C5: on a well-formed timeline the starting items are exactly the
item ids of the first frame's purchase events of the given participant with
timestamp strictly below 30 000 ms, in event order; later frames and later
timestamps contribute nothing. -/
theorem extract_starting_items_spec (t : STimeline) (pid : Int) :
    extract_starting_items (encTimeline t) (.jint pid) =
      ((t.frames.headD []).filter (fun e =>
          e.type == "ITEM_PURCHASED" && e.participantId == pid &&
          decide (e.timestamp < 30000))).map (fun e => JVal.jint e.itemId) := by
  cases hf : t.frames with
  | nil =>
    simp [extract_starting_items, extract_starting_items_try, encTimeline, hf,
      jget, truthy]
  | cons f fr =>
    have h1 : jget (.jobj [("info", .jobj [("frames", .jarr ((f :: fr).map encFrame))])])
        "info" (.jobj []) = .ok (.jobj [("frames", .jarr ((f :: fr).map encFrame))]) := rfl
    have h2 : jget (.jobj [("frames", .jarr ((f :: fr).map encFrame))]) "frames"
        (.jarr []) = .ok (.jarr ((f :: fr).map encFrame)) := rfl
    have h3 : truthy (.jarr ((f :: fr).map encFrame)) = true := rfl
    have h4 : index0 (.jarr ((f :: fr).map encFrame)) = .ok (encFrame f) := rfl
    have h5 : jget (encFrame f) "events" (.jarr []) = .ok (.jarr (f.map encEvent)) := rfl
    have h6 : toIter (.jarr (f.map encEvent)) = .ok (f.map encEvent) := rfl
    simp only [extract_starting_items, extract_starting_items_try, encTimeline, hf,
      h1, h2, h3, h4, h5, h6, if_true, startScanEvents_enc]
    simp

/-- C6 counterexample: on a first frame holding one valid purchase event
followed by a bare number, the traversal raises after collecting one item,
and the function returns that one-element result, not `[]`. -/
theorem starting_items_swallow_cex :
    extract_starting_items_try cexTimeline (.jint 1) = .error [.jint 1055] ∧
    extract_starting_items cexTimeline (.jint 1) = [.jint 1055] ∧
    ([JVal.jint 1055] : List JVal) ≠ [] :=
  ⟨rfl, rfl, by simp⟩

/-- C6 (amended): an exception anywhere in the traversal is swallowed —
the function returns normally — but the result is the list of items already
collected when the exception was raised (empty only when the failure
precedes the first collected purchase). -/
theorem starting_items_swallow (t pid : JVal) (p : List JVal)
    (h : extract_starting_items_try t pid = .error p) :
    extract_starting_items t pid = p := by
  rw [extract_starting_items, h]

theorem starting_items_swallow_witness :
    extract_starting_items cexTimeline (.jint 1) = [.jint 1055] :=
  starting_items_swallow cexTimeline (.jint 1) [.jint 1055] rfl

end FocusApp

namespace FocusApp

/-- C7: writing an entry and reading it back within the TTL returns the
written payload; reading it once `now - timestamp ≥ 21600` is a cache miss
(`None`). -/
theorem cache_roundtrip (fs : CacheFS) (champion_id role : String) (data : JVal)
    (tw tr : Int) :
    (tr - tw < CACHE_DURATION →
      load_build_cache (save_build_cache fs champion_id role tw data) champion_id role tr
        = data) ∧
    (CACHE_DURATION ≤ tr - tw →
      load_build_cache (save_build_cache fs champion_id role tw data) champion_id role tr
        = .jnull) := by
  have hlook : (save_build_cache fs champion_id role tw data).lookup
      (get_cache_path champion_id role) =
      some (FileContent.good (.jobj
        [("timestamp", .jint tw),
         ("champion_id", .jstr champion_id),
         ("role", .jstr role),
         ("data", data)])) := by
    simp [save_build_cache, List.lookup]
  have hts : jget (.jobj
      [("timestamp", .jint tw),
       ("champion_id", .jstr champion_id),
       ("role", .jstr role),
       ("data", data)]) "timestamp" (.jint 0) = .ok (.jint tw) := rfl
  have hdata : jget (.jobj
      [("timestamp", .jint tw),
       ("champion_id", .jstr champion_id),
       ("role", .jstr role),
       ("data", data)]) "data" .jnull = .ok data := rfl
  constructor
  · intro h
    rw [load_build_cache, hlook]
    simp only [hts, toNum]
    rw [if_pos h, hdata]
  · intro h
    rw [load_build_cache, hlook]
    simp only [hts, toNum]
    rw [if_neg (by omega)]

theorem cache_roundtrip_witness :
    load_build_cache (save_build_cache [] "aatrox" "top" 1000 examplePayload)
      "aatrox" "top" 2000 = examplePayload ∧
    load_build_cache (save_build_cache [] "aatrox" "top" 1000 examplePayload)
      "aatrox" "top" 30000 = .jnull :=
  ⟨(cache_roundtrip [] "aatrox" "top" examplePayload 1000 2000).1 (by norm_num [CACHE_DURATION]),
   (cache_roundtrip [] "aatrox" "top" examplePayload 1000 30000).2 (by norm_num [CACHE_DURATION])⟩

/-- C10: `load_build_cache` is total (never propagates an exception) and
returns a `None` cache miss on every failure state: absent file, unreadable
or malformed file, non-dict contents, and — at any realistic clock, i.e.
`now ≥ TTL` — a dict entry with no `timestamp` field (the 0 default makes it
stale). -/
theorem load_build_cache_miss_states (fs : CacheFS) (champion_id role : String) (now : Int) :
    (fs.lookup (get_cache_path champion_id role) = none →
      load_build_cache fs champion_id role now = .jnull) ∧
    (fs.lookup (get_cache_path champion_id role) = some .bad →
      load_build_cache fs champion_id role now = .jnull) ∧
    (∀ xs, fs.lookup (get_cache_path champion_id role) = some (.good (.jarr xs)) →
      load_build_cache fs champion_id role now = .jnull) ∧
    (∀ fields, fs.lookup (get_cache_path champion_id role) = some (.good (.jobj fields)) →
      fields.lookup "timestamp" = none → CACHE_DURATION ≤ now →
      load_build_cache fs champion_id role now = .jnull) := by
  refine ⟨?_, ?_, ?_, ?_⟩
  · intro h
    rw [load_build_cache, h]
  · intro h
    rw [load_build_cache, h]
  · intro xs h
    rw [load_build_cache, h]
    rfl
  · intro fields h htime hnow
    rw [load_build_cache, h]
    have hts : jget (.jobj fields) "timestamp" (.jint 0) = .ok (.jint 0) := by
      rw [jget, htime]
    simp only [hts, toNum]
    rw [if_neg (by omega)]

theorem load_build_cache_miss_states_witness :
    load_build_cache [] "aatrox" "top" 0 = .jnull ∧
    load_build_cache [(get_cache_path "aatrox" "top", FileContent.bad)] "aatrox" "top" 0
      = .jnull ∧
    load_build_cache [(get_cache_path "aatrox" "top", FileContent.good (.jarr []))]
      "aatrox" "top" 0 = .jnull ∧
    load_build_cache [(get_cache_path "aatrox" "top", FileContent.good (.jobj []))]
      "aatrox" "top" 30000 = .jnull :=
  ⟨(load_build_cache_miss_states [] "aatrox" "top" 0).1 rfl,
   (load_build_cache_miss_states [(get_cache_path "aatrox" "top", FileContent.bad)]
      "aatrox" "top" 0).2.1 (by simp [List.lookup]),
   (load_build_cache_miss_states [(get_cache_path "aatrox" "top", FileContent.good (.jarr []))]
      "aatrox" "top" 0).2.2.1 [] (by simp [List.lookup]),
   (load_build_cache_miss_states [(get_cache_path "aatrox" "top", FileContent.good (.jobj []))]
      "aatrox" "top" 30000).2.2.2 [] (by simp [List.lookup]) rfl
      (by norm_num [CACHE_DURATION])⟩

/-- C8 counterexample: with no API key configured and a fresh cache
entry present, the orchestrator returns `None`, not the cached payload — the
credential check precedes the cache check. -/
theorem get_builds_cache_not_first_cex :
    load_build_cache exampleFS "aatrox" "top" 2000 = examplePayload ∧
    (2000 : Int) - 1000 < CACHE_DURATION ∧
    (get_builds_from_api "" exampleEnv "euw" exampleFS 2000 "aatrox" "top" 20).1 = .jnull ∧
    examplePayload ≠ .jnull := by
  refine ⟨rfl, by norm_num [CACHE_DURATION], rfl, ?_⟩
  intro h
  cases h

/-- C8 (amended): the cache check is the orchestrator's *second* step,
guarded by the credential check: whenever an API key is configured and
`load_build_cache` yields a truthy payload, that payload is returned
immediately and unchanged for **every** environment — no mapping resolution,
no network scan, no cache write. -/
theorem get_builds_cached (apiKey : String) (env : Env) (region : String) (fs : CacheFS)
    (now : Int) (champion_id role : String) (max_matches : Nat)
    (hk : apiKey ≠ "")
    (hc : truthy (load_build_cache fs champion_id role now) = true) :
    get_builds_from_api apiKey env region fs now champion_id role max_matches =
      (load_build_cache fs champion_id role now, fs) := by
  rw [get_builds_from_api, if_neg hk, if_pos hc]

theorem get_builds_cached_witness :
    get_builds_from_api "key" exampleEnv "euw" exampleFS 2000 "aatrox" "top" 20 =
      (load_build_cache exampleFS "aatrox" "top" 2000, exampleFS) :=
  get_builds_cached "key" exampleEnv "euw" exampleFS 2000 "aatrox" "top" 20
    (by simp) rfl

end FocusApp
